import Mathlib

/-!
Verification development for the page/row engine and terminal output buffer
of the `stakker_tui` crate (files `src/page.rs` and `src/termout.rs`).

Shallow embedding conventions:
* byte buffers are `List Nat` with every element `< 256`;
* Rust `u16` arithmetic is `Nat` with explicit `% 65536` at each point where
  the source can wrap (release-mode two's-complement wrapping semantics);
* Rust `i32` coordinates are `Int`;
* operations that can abort at run time (out-of-range slice index, explicit
  abort on a malformed span log, division by zero) return `Option`, with
  `none` for the aborting runs; bounded recursion uses an explicit fuel
  argument whose exhaustion also yields `none`.
-/

namespace StakkerTui

/-- Wrapping `u16` subtraction: `a - b` on `u16` values in release mode. -/
def u16sub (a b : Nat) : Nat :=
  (a + 65536 - b % 65536) % 65536

/-- Rust `as u16` cast of an `i32` value (two's-complement truncation). -/
def intToU16 (i : Int) : Nat :=
  (i % 65536).toNat

/-- Rust `as u8` cast of an integer value. -/
def intToU8 (i : Int) : Nat :=
  (i % 256).toNat

/-- The byte slice `d[off .. off+len]`.  Every glyph produced by the scanners
below satisfies `off + len ≤ d.length`, so the total `drop/take` form agrees
with the Rust slice there. -/
def sliceGet (d : List Nat) (off len : Nat) : List Nat :=
  (d.drop off).take len

/-- `ERR_HFB` from `page.rs`: the "impossible" background colour. -/
def ERR_HFB : Nat := 162

/-- Result of `Scan::measure` (`enum Meas` in `page.rs`). -/
inductive Meas where
  | glyph (w : Nat)
  | attr (v : Nat)
  | done
  deriving DecidableEq, Repr

/-- `Scan::measure` from `page.rs`, on the remaining byte slice.  Returns the
measured item together with the remaining bytes.  `Meas.done` corresponds to
`Meas::End`.  `none` models the out-of-range index aborts that the source
performs when a multi-byte leading byte sits at the very end of the slice
(the source tests `self.0.len() <= N` and then reads `self.0[1..]`
unconditionally). -/
def scanMeasure (p : List Nat) : Option (Meas × List Nat) :=
  match p with
  | [] => some (.done, p)
  | b0 :: rest =>
    if b0 ≥ 0xF8 then some (.done, p)          -- command byte, not UTF-8
    else if b0 < 0xC0 then some (.glyph 1, rest)
    else if b0 < 0xE0 then
      -- source: `self.0.len() <= 2 && (self.0[1] & 0xC0) == 0x80`
      if p.length ≤ 2 then
        match rest with
        | [] => none                           -- index 1 out of range
        | b1 :: rest2 =>
          if b1 &&& 0xC0 = 0x80 then some (.glyph 1, rest2)
          else some (.glyph 1, rest)
      else some (.glyph 1, rest)
    else if b0 < 0xF0 then
      -- source: `self.0.len() <= 3 && cont(1) && cont(2)`
      if p.length ≤ 3 then
        match rest with
        | [] => none
        | b1 :: rest2 =>
          if b1 &&& 0xC0 = 0x80 then
            match rest2 with
            | [] => none
            | b2 :: rest3 =>
              if b2 &&& 0xC0 = 0x80 then
                let v := ((b0 &&& 0x0F) <<< 12) ||| ((b1 &&& 0x3F) <<< 6)
                if 0xE000 ≤ v ∧ v < 0xF900 then
                  some (.attr ((v ||| (b2 &&& 0x3F)) - 0xE000), rest3)
                else some (.glyph 1, rest3)
              else some (.glyph 1, rest)
          else some (.glyph 1, rest)
      else some (.glyph 1, rest)
    else
      -- source: `self.0.len() <= 4 && cont(1) && cont(2) && cont(3)`
      if p.length ≤ 4 then
        match rest with
        | [] => none
        | b1 :: rest2 =>
          if b1 &&& 0xC0 = 0x80 then
            match rest2 with
            | [] => none
            | b2 :: rest3 =>
              if b2 &&& 0xC0 = 0x80 then
                match rest3 with
                | [] => none
                | b3 :: rest4 =>
                  if b3 &&& 0xC0 = 0x80 then some (.glyph 1, rest4)
                  else some (.glyph 1, rest)
              else some (.glyph 1, rest)
          else some (.glyph 1, rest)
      else some (.glyph 1, rest)

/-- Fuelled loop of `Scan::measure_rest`; the accumulator is the `u16` x. -/
def measureRestF : Nat → List Nat → Nat → Option Nat
  | 0, _, _ => none
  | fuel + 1, p, acc =>
    match scanMeasure p with
    | none => none
    | some (.done, _) => some acc
    | some (.glyph w, rest) => measureRestF fuel rest ((acc + w) % 65536)
    | some (.attr _, rest) => measureRestF fuel rest acc

/-- `Scan::measure_rest` from `page.rs`.  Each glyph or attribute step
consumes at least one byte, so `length + 1` fuel never runs out. -/
def measureRest (p : List Nat) : Option Nat :=
  measureRestF (p.length + 1) p 0

/-- `Page::measure` from `page.rs` (the receiver is unused by the source). -/
def pageMeasure (text : List Nat) : Option Nat :=
  measureRest text

/-- `Row` from `page.rs`. -/
structure Row where
  normal : Bool
  pos : Nat            -- u16
  data : List Nat      -- bytes
  deriving DecidableEq, Repr

/-- `Row::replace_all` from `page.rs`. -/
def replaceAll (_r : Row) : Row :=
  { normal := true, pos := 0, data := [] }

/-- The bytes pushed by `Row::arg` (values in `0..=32767` per source doc). -/
def argBytes (v : Nat) : List Nat :=
  if v ≥ 128 then [((v >>> 8) % 256) ||| 128, v % 256] else [v % 256]

/-- `Row::span` from `page.rs`: append a span header, update `pos`. -/
def rowSpan (r : Row) (x sx shift : Nat) : Row :=
  let header :=
    if x = r.pos then
      if shift = 0 then [0xFC]
      else [0xFD] ++ argBytes shift
    else
      if shift = 0 then [0xFE] ++ argBytes x
      else [0xFF] ++ argBytes shift ++ argBytes x
  { r with data := r.data ++ header ++ argBytes sx, pos := (x + sx) % 65536 }

/-- The three bytes pushed by `Row::hfb`.  The source computes
`(0xE000 + hfb).max(0xF8FF)` (note: `max`, which pins every value of
`hfb ≤ 0x18FF` to `0xF8FF`). -/
def hfbMarker (hfb : Nat) : List Nat :=
  let v := max ((0xE000 + hfb) % 65536) 0xF8FF
  [(0xE0 + ((v >>> 12) % 256)) % 256,
   (0x80 + ((v >>> 6) &&& 63)) % 256,
   (0x80 + (v &&& 63)) % 256]

/-- `Row::hfb` from `page.rs`. -/
def rowHfb (r : Row) (hfb : Nat) : Row :=
  { r with data := r.data ++ hfbMarker hfb }

/-- `Row::add_slice` from `page.rs`. -/
def addSlice (r : Row) (text : List Nat) : Row :=
  { r with data := r.data ++ text }

/-- `Row::new` from `page.rs`. -/
def rowNew (width hfb : Nat) : Row :=
  rowHfb (rowSpan { normal := true, pos := 0, data := [] } 0 width 0) hfb

/-- `Page` from `page.rs`. -/
structure Page where
  sy : Int
  sx : Int
  csx : Int
  rows : List Row
  deriving DecidableEq, Repr

/-- `Page::new` from `page.rs`.  `csx` is `Scan(b"8").measure_rest() as i32`
(the byte of `"8"` is 56); `measure_rest` cannot abort on that input. -/
def pageNew (sy sx : Int) (hfb : Nat) : Page :=
  let sy' := max sy 0
  let sx' := max sx 0
  let csx : Int := Int.ofNat ((measureRest [56]).getD 0)
  { sy := sy', sx := sx', csx := csx,
    rows := List.replicate sy'.toNat (rowNew (intToU16 sx') hfb) }

/-- `Region` from `page.rs`: the offset and clip parameters.  The mutable
page borrow is passed separately to each operation. -/
structure Region where
  oy : Int
  ox : Int
  sy : Int
  sx : Int
  cy0 : Int
  cx0 : Int
  cy1 : Int
  cx1 : Int
  deriving DecidableEq, Repr

/-- `Page::full` from `page.rs`. -/
def pageFull (pg : Page) : Region :=
  { oy := 0, ox := 0, sy := pg.sy, sx := pg.sx,
    cy0 := 0, cx0 := 0, cy1 := pg.sy, cx1 := pg.sx }

/-- `Page::region` from `page.rs`. -/
def pageRegion (pg : Page) (y x sy sx : Int) : Region :=
  { oy := y, ox := x, sy := sy, sx := sx,
    cy0 := max y 0, cx0 := max x 0,
    cy1 := min (y + sy) pg.sy, cx1 := min (x + sx) pg.sx }

/-- `Region::region` from `page.rs` (nested sub-region). -/
def regionSub (rg : Region) (y x sy sx : Int) : Region :=
  let oy := rg.oy + y
  let ox := rg.ox + x
  { oy := oy, ox := ox, sy := sy, sx := sx,
    cy0 := max rg.cy0 oy, cx0 := max rg.cx0 ox,
    cy1 := min rg.cy1 (oy + sy), cx1 := min rg.cx1 (ox + sx) }

/-- Replace row `i` of the page's row list (Rust `&mut self.page.rows[i]`);
`none` models the out-of-range index abort. -/
def setRow (pg : Page) (y : Int) (f : Row → Row) : Option Page :=
  if y < 0 then none
  else if h : y.toNat < pg.rows.length then
    some { pg with rows := pg.rows.set y.toNat (f (pg.rows.get ⟨y.toNat, h⟩)) }
  else none

/-- The per-row body of `Region::clear`, for the two branches of the source. -/
def clearRowsGo (pg : Page) (f : Row → Row) (y : Int) : Nat → Option Page
  | 0 => some pg
  | n + 1 => do
    let pg' ← setRow pg y f
    clearRowsGo pg' f (y + 1) n

/-- `Region::clear` from `page.rs`. -/
def regionClear (pg : Page) (rg : Region) (hfb : Nat) : Option Page :=
  let count := (rg.cy1 - rg.cy0).toNat
  if rg.cx0 ≤ 0 ∧ rg.cx1 ≥ pg.sx then
    clearRowsGo pg
      (fun r => rowHfb (rowSpan (replaceAll r) 0 (intToU16 pg.sx) 0) hfb)
      rg.cy0 count
  else
    clearRowsGo pg
      (fun r => rowHfb (rowSpan r (intToU16 rg.cx0) (intToU16 (rg.cx1 - rg.cx0)) 0) hfb)
      rg.cy0 count

/-- The skip loop of `Region::writeb` (run when the start position is left of
the clip).  `Sum.inl` is the source's early `return x` on `Meas::End` — note
that it returns the page-coordinate `x` without subtracting `self.ox`.
`Sum.inr` carries the state at the `break` points: remaining text, `x`, and
the current `hfb`. -/
def writebSkip : Nat → List Nat → Int → Nat → Int → Option (Sum Int (List Nat × Int × Nat))
  | 0, _, _, _, _ => none
  | fuel + 1, p, x, hfb, cx0 =>
    match scanMeasure p with
    | none => none
    | some (.done, _) => some (.inl x)
    | some (.attr v, p') => writebSkip fuel p' x v cx0
    | some (.glyph inc, p') =>
      let x' := x + Int.ofNat inc
      if x' > cx0 then some (.inr (p, x, hfb))          -- rewind the glyph
      else if x' = cx0 then some (.inr (p', x', hfb))
      else writebSkip fuel p' x' hfb cx0

/-- The main write loop of `Region::writeb`.  `start` is the scan position at
loop entry; `x0`, `shift` are the span parameters computed before the loop.
Returns the updated row and the returned x coordinate. -/
def writebMain : Nat → List Nat → List Nat → Int → Int → Int → Int → Int → Nat → Row → Option (Row × Int)
  | 0, _, _, _, _, _, _, _, _, _ => none
  | fuel + 1, start, p, x, x0, shift, cx1, ox, hfb, row =>
    match scanMeasure p with
    | none => none
    | some (.glyph inc, p') =>
      let x' := x + Int.ofNat inc
      if x' ≥ cx1 then do
        let row := rowSpan row (intToU16 x0) (intToU16 (cx1 - x0)) (intToU16 shift)
        let row := rowHfb row hfb
        let row := addSlice row (start.take (start.length - p'.length))
        let m ← measureRest p'
        some (row, x' + Int.ofNat m - ox)
      else writebMain fuel start p' x' x0 shift cx1 ox hfb row
    | some (.attr _, p') => writebMain fuel start p' x x0 shift cx1 ox hfb row
    | some (.done, _) =>
      let row := rowSpan row (intToU16 x0) (intToU16 (x - x0)) (intToU16 shift)
      let row := rowHfb row hfb
      let row := addSlice row start
      some (row, x - ox)

/-- `Region::writeb` from `page.rs` (also the body of `Region::write`).
Returns the page with the updated row and the returned x coordinate. -/
def regionWriteb (pg : Page) (rg : Region) (y x : Int) (hfb : Nat) (text : List Nat) : Option (Page × Int) :=
  let y := y + rg.oy
  let x := x + rg.ox
  if y < rg.cy0 ∨ y ≥ rg.cy1 then do
    -- just measure string
    let m ← measureRest text
    some (pg, x + Int.ofNat m - rg.ox)
  else do
    let st ← if x < rg.cx0 then writebSkip (text.length + 2) text x hfb rg.cx0
             else some (.inr (text, x, hfb))
    match st with
    | .inl xret => some (pg, xret)
    | .inr (p, x, hfb) =>
      if x ≥ rg.cx1 then do
        -- just measure string
        let m ← measureRest p
        some (pg, x + Int.ofNat m - rg.ox)
      else
        if y < 0 then none
        else if h : y.toNat < pg.rows.length then do
          let row := pg.rows.get ⟨y.toNat, h⟩
          let x0 := max x rg.cx0
          let (row', xret) ← writebMain (p.length + 2) p p x x0 (x0 - x) rg.cx1 rg.ox hfb row
          some ({ pg with rows := pg.rows.set y.toNat row' }, xret)
        else none

/-- `Glyph` from `page.rs` (normalisation/diff intermediate). -/
structure Glyph where
  hfb : Nat
  x : Nat
  sx : Nat
  shift : Nat
  len : Nat
  wid : Nat
  off : Nat
  deriving DecidableEq, Repr

/-- `Glyph::equal` from `page.rs`: all fields plus the payload byte slices. -/
def glyphEqual (a : Glyph) (adata : List Nat) (b : Glyph) (bdata : List Nat) : Bool :=
  a.hfb = b.hfb && a.x = b.x && a.sx = b.sx && a.shift = b.shift
    && a.len = b.len && a.wid = b.wid
    && sliceGet adata a.off a.len = sliceGet bdata b.off b.len

/-- `Span` from `page.rs`. -/
structure Span where
  shift : Nat
  x : Nat
  sx : Nat
  deriving DecidableEq, Repr

/-- `Scan::get_arg` from `page.rs`: decode one varint argument.  `none`
models the "Expecting command argument value" abort. -/
def getArg (p : List Nat) : Option (Nat × List Nat) :=
  match p with
  | [] => none
  | b :: rest =>
    if b < 128 then some (b, rest)
    else
      match rest with
      | [] => none
      | b2 :: rest2 => some (((b - 128) <<< 8) + b2, rest2)

/-- `Scan::get_span` from `page.rs`.  `some (none, _)` is the source's
`None` (end of data); an unexpected byte or truncated argument aborts
(`none`). -/
def getSpan (p : List Nat) (x : Nat) : Option (Option Span × List Nat) :=
  match p with
  | [] => some (none, [])
  | b :: rest =>
    if b = 0xFC then do
      let (sx, r) ← getArg rest
      some (some { shift := 0, x := x, sx := sx }, r)
    else if b = 0xFD then do
      let (shift, r1) ← getArg rest
      let (sx, r) ← getArg r1
      some (some { shift := shift, x := x, sx := sx }, r)
    else if b = 0xFE then do
      let (x', r1) ← getArg rest
      let (sx, r) ← getArg r1
      some (some { shift := 0, x := x', sx := sx }, r)
    else if b = 0xFF then do
      let (shift, r1) ← getArg rest
      let (x', r2) ← getArg r1
      let (sx, r) ← getArg r2
      some (some { shift := shift, x := x', sx := sx }, r)
    else none                  -- "Expecting span command but found byte v"

/-- `GlyphScan` from `page.rs`. -/
structure GS where
  p : List Nat
  sx : Nat
  dataLen : Nat
  x : Nat
  xend : Nat
  hfb : Nat
  deriving DecidableEq, Repr

/-- `GlyphScan::new` from `page.rs`. -/
def gsNew (p : List Nat) (sx dataLen : Nat) : GS :=
  { p := p, sx := sx, dataLen := dataLen, x := 0, xend := 0, hfb := ERR_HFB }

/-- The end-of-data marker glyph returned by `GlyphScan::next`. -/
def gsEndMarker (sx : Nat) : Glyph :=
  { x := sx, sx := 1, shift := 0, hfb := ERR_HFB, len := 0, wid := 0, off := 0 }

/-- The loop of `GlyphScan::next`; `shift` is the loop-local variable of the
source (freshly zero on each call to `next`). -/
def gsNextF : Nat → Nat → GS → Option (Glyph × GS)
  | 0, _, _ => none
  | fuel + 1, shift, gs =>
    if gs.xend = 0 then
      match getSpan gs.p gs.x with
      | none => none
      | some (none, _) => some (gsEndMarker gs.sx, gs)
      | some (some span, p') =>
        gsNextF fuel span.shift
          { gs with p := p', x := span.x,
                    xend := min gs.sx ((span.x + span.sx) % 65536) }
    else
      let start := gs.p
      match scanMeasure gs.p with
      | none => none
      | some (.glyph inc, p') =>
        let x0 := gs.x
        let gs' := { gs with p := p', x := (gs.x + inc) % 65536 }
        if x0 < gs.xend then
          some ({ x := x0,
                  sx := min (u16sub inc shift) (u16sub gs.xend x0),
                  shift := shift, hfb := gs.hfb,
                  len := start.length - p'.length, wid := inc,
                  off := gs.dataLen - start.length }, gs')
        else gsNextF fuel 0 gs'
      | some (.attr v, p') => gsNextF fuel shift { gs with p := p', hfb := v }
      | some (.done, _) =>
        if gs.x < gs.xend then
          -- source: sets `x := xend`, `xend := 0`, then builds the padding
          -- glyph with `sx: self.xend - self.x` (which is 0 - old xend on u16)
          some ({ x := gs.x, sx := u16sub 0 gs.xend, shift := 0, hfb := gs.hfb,
                  len := 0, wid := 0, off := 0 },
                { gs with x := gs.xend, xend := 0 })
        else gsNextF fuel shift { gs with xend := 0 }

/-- `GlyphScan::next` from `page.rs`, with enough fuel for any terminating
run (each loop iteration either consumes input bytes or clears `xend`). -/
def gsNext (gs : GS) : Option (Glyph × GS) :=
  gsNextF (2 * gs.p.length + 4) 0 gs

/-- The loop of `Row::difference`, accumulating the glyphs passed to the
callback. -/
def differenceF : Nat → GS → GS → Glyph → Glyph → List Nat → List Nat → Nat → List Glyph → Option (List Glyph)
  | 0, _, _, _, _, _, _, _, _ => none
  | fuel + 1, s0, s1, g0, g1, odata, ndata, sx, acc =>
    if g0.x < sx ∨ g1.x < sx then
      if g0.x < g1.x then do
        let (g0', s0') ← gsNext s0
        differenceF fuel s0' s1 g0' g1 odata ndata sx acc
      else if glyphEqual g0 odata g1 ndata then do
        let (g0', s0') ← gsNext s0
        let (g1', s1') ← gsNext s1
        differenceF fuel s0' s1' g0' g1' odata ndata sx acc
      else do
        let (g1', s1') ← gsNext s1
        differenceF fuel s0 s1' g0 g1' odata ndata sx (acc ++ [g1])
    else some acc

/-- `Row::difference` from `page.rs`: the list of glyphs reported to the
callback (in order), or `none` for an aborting run. -/
def rowDifference (old new : Row) (sx : Nat) : Option (List Glyph) :=
  if old.data = new.data then some []
  else do
    let (g0, s0') ← gsNext (gsNew old.data sx old.data.length)
    let (g1, s1') ← gsNext (gsNew new.data sx new.data.length)
    differenceF (4 * (old.data.length + new.data.length) + 2 * sx + 16)
      s0' s1' g0 g1 old.data new.data sx []

/-- Default glyph for in-range list indexing during re-serialisation. -/
def dfltGlyph : Glyph :=
  { x := 0, sx := 0, shift := 0, hfb := 0, len := 0, wid := 0, off := 0 }

/-- The background glyph pushed at the start of `Row::normalize`. -/
def bgGlyph (sx : Nat) : Glyph :=
  { x := 0, sx := sx, shift := 0, hfb := ERR_HFB, len := 0, wid := 0, off := 0 }

/-- `copy_glyph_range` from `page.rs`: splice `[x0, x1)` out of the front of
`from`, appending to `to`.  Returns the remaining `from` and the new `to`. -/
def copyGlyphRange (x0 x1 : Nat) : List Glyph → List Glyph → List Glyph × List Glyph
  | [], to_ => ([], to_)
  | g :: rest, to_ =>
    if (g.x + g.sx) % 65536 ≤ x0 then copyGlyphRange x0 x1 rest to_
    else
      let g :=
        if g.x < x0 then
          -- cut off front of glyph
          let adj := u16sub x0 g.x
          { g with x := (g.x + adj) % 65536, sx := u16sub g.sx adj,
                   shift := if g.len ≠ 0 then (g.shift + adj) % 65536 else g.shift }
        else g
      if (g.x + g.sx) % 65536 > x1 then
        -- cut off end of glyph; push the uncut instance back, then break
        (g :: rest, to_ ++ [{ g with sx := u16sub x1 g.x }])
      else
        let to_ := to_ ++ [g]
        if (g.x + g.sx) % 65536 ≥ x1 then (rest, to_)
        else copyGlyphRange x0 x1 rest to_

/-- The merge loop of `Row::normalize`: fold the scanned glyphs over the
background deque.  Returns the final `(glyphs1, glyphs2, x)`. -/
def normMergeF : Nat → GS → Nat → List Glyph → List Glyph → Nat → Option (List Glyph × List Glyph × Nat)
  | 0, _, _, _, _, _ => none
  | fuel + 1, scan, x, g1, g2, sx => do
    let (g, scan') ← gsNext scan
    if g.x ≥ sx then some (g1, g2, x)
    else
      let (x, g1, g2) :=
        if x > g.x then
          -- backward jump: finish copying background, swap deques, restart
          let (_, g2full) := copyGlyphRange x sx g1 g2
          (0, g2full, ([] : List Glyph))
        else (x, g1, g2)
      let (g1, g2) :=
        if x < g.x then copyGlyphRange x g.x g1 g2
        else (g1, g2)
      normMergeF fuel scan' ((g.x + g.sx) % 65536) g1 (g2 ++ [g]) sx

/-- The span-coalescing scan-ahead of `Row::normalize` step 4: starting from
`e` with accumulated width `acc`, extend while the previous glyph is
full-width and the next glyph has no shift.  Returns `(end, sx)`. -/
def serSpanEnd (gvec : List Glyph) (glen : Nat) : Nat → Nat → Nat → Nat × Nat
  | 0, e, acc => (e, acc)
  | fuel + 1, e, acc =>
    if e < glen then
      let prev := gvec.getD (e - 1) dfltGlyph
      let nxt := gvec.getD e dfltGlyph
      if (prev.wid + prev.shift) % 65536 = prev.sx ∧ nxt.shift = 0 then
        serSpanEnd gvec glen fuel (e + 1) ((acc + nxt.sx) % 65536)
      else (e, acc)
    else (e, acc)

/-- The inner emit loop of `Row::normalize` step 4: emit `count` glyphs
starting at `gi`, tracking the current `hfb`. -/
def serEmitF (data : List Nat) (gvec : List Glyph) : Nat → Nat → Nat → Row → Row × Nat
  | 0, _, hfb, row => (row, hfb)
  | count + 1, gi, hfb, row =>
    let gl := gvec.getD gi dfltGlyph
    if gl.hfb ≠ hfb then
      serEmitF data gvec count (gi + 1) gl.hfb
        (addSlice (rowHfb row gl.hfb) (sliceGet data gl.off gl.len))
    else
      serEmitF data gvec count (gi + 1) hfb
        (addSlice row (sliceGet data gl.off gl.len))

/-- The outer re-serialisation loop of `Row::normalize` step 4.  `gi`
strictly increases each iteration, so `glen + 1` fuel never runs out. -/
def serOuterF (data : List Nat) (gvec : List Glyph) (glen : Nat) : Nat → Nat → Nat → Nat → Row → Row
  | 0, _, _, _, row => row
  | fuel + 1, gi, hfb, x, row =>
    if gi < glen then
      let se := serSpanEnd gvec glen glen (gi + 1) (gvec.getD gi dfltGlyph).sx
      let row1 := rowSpan row x se.2 (gvec.getD gi dfltGlyph).shift
      let em := serEmitF data gvec (se.1 - gi) gi hfb row1
      serOuterF data gvec glen fuel se.1 em.2 ((x + se.2) % 65536) em.1
    else row

/-- The body of `Row::normalize` (run when `normal` is false). -/
def rowNormalizeBody (r : Row) (sx : Nat) : Option Row :=
  match normMergeF (2 * r.data.length + 4) (gsNew r.data sx r.data.length) 0 [bgGlyph sx] [] sx with
  | none => none
  | some m =>
    let gvec := if m.2.2 < sx then (copyGlyphRange m.2.2 sx m.1 m.2.1).2 else m.2.1
    some (serOuterF r.data gvec gvec.length (gvec.length + 1) 0 65535 0 (replaceAll r))

/-- `Row::normalize` from `page.rs`: guarded by the `normal` flag. -/
def rowNormalize (r : Row) (sx : Nat) : Option Row :=
  if r.normal then some r else rowNormalizeBody r sx

/-- Normalize the first `n` rows of the list (`for y in 0..sy` indexing in
the source); `none` models the index abort on a too-short row list. -/
def normRows (sx : Nat) : Nat → List Row → Option (List Row)
  | 0, rs => some rs
  | _ + 1, [] => none
  | n + 1, r :: rs => do
    let r' ← rowNormalize r sx
    let rs' ← normRows sx n rs
    some (r' :: rs')

/-- `Page::normalize` from `page.rs`. -/
def pageNormalize (pg : Page) : Option Page := do
  let rs ← normRows (intToU16 pg.sx) pg.sy.toNat pg.rows
  some { pg with rows := rs }

/-! ## Output buffer (`termout.rs`) -/

/-- `TermOut` from `termout.rs`; `features` is the `colour_256` flag. -/
structure TermOut where
  buf : List Nat
  flushTo : Nat
  features : Bool
  size : Int × Int
  newCleanup : Option (List Nat)
  deriving DecidableEq, Repr

/-- `TermOut::new` from `termout.rs`. -/
def termNew (features : Bool) : TermOut :=
  { buf := [], flushTo := 0, features := features, size := (0, 0), newCleanup := none }

/-- `TermOut::flush` from `termout.rs`. -/
def termFlush (t : TermOut) : TermOut :=
  { t with flushTo := t.buf.length }

/-- `TermOut::out` / `TermOut::bytes` from `termout.rs`. -/
def termBytes (t : TermOut) (d : List Nat) : TermOut :=
  { t with buf := t.buf ++ d }

/-- `TermOut::byt` from `termout.rs`. -/
def termByt (t : TermOut) (v : Nat) : TermOut :=
  { t with buf := t.buf ++ [v % 256] }

/-- `TermOut::asc` from `termout.rs` (`c as u8` for an ASCII char code). -/
def termAsc (t : TermOut) (c : Nat) : TermOut :=
  { t with buf := t.buf ++ [c % 256] }

/-- `TermOut::esc` from `termout.rs`. -/
def termEsc (t : TermOut) (c : Nat) : TermOut :=
  { t with buf := t.buf ++ [27, c % 256] }

/-- `TermOut::csi` from `termout.rs`. -/
def termCsi (t : TermOut) : TermOut :=
  termEsc t 91

/-- The digit bytes appended by `TermOut::num` for value `v`. -/
def numBytes (v : Int) : List Nat :=
  if v ≤ 0 then [48]
  else if v ≤ 9 then [intToU8 v + 48]
  else if v ≤ 99 then [intToU8 (v / 10) + 48, intToU8 (v % 10) + 48]
  else if v ≤ 999 then [intToU8 (v / 100) + 48, intToU8 (v / 10 % 10) + 48,
                        intToU8 (v % 10) + 48]
  else [57, 57, 57]

/-- `TermOut::num` from `termout.rs`. -/
def termNum (t : TermOut) (v : Int) : TermOut :=
  { t with buf := t.buf ++ numBytes v }

/-- `TermOut::at` from `termout.rs`.  `Int.emod` agrees with Rust
`rem_euclid` on a nonzero divisor; a zero divisor aborts (`none`). -/
def termAt (t : TermOut) (y x : Int) : Option TermOut :=
  if t.size.1 = 0 ∨ t.size.2 = 0 then none
  else some (termAsc (termNum (termAsc (termNum (termCsi t)
    (y.emod t.size.1 + 1)) 59) (x.emod t.size.2 + 1)) 72)

/-- `TermOut::attr` from `termout.rs`. -/
def termAttr (t : TermOut) (codes : List Nat) : TermOut :=
  termAsc (termBytes (termCsi t) codes) 109

/-- The foreground-code table of `TermOut::hfb`. -/
def hfbFG : List Int := [30, 34, 31, 35, 32, 36, 33, 37, 39, 39]

/-- `TermOut::hfb` from `termout.rs` (`hfb` is a `u8`). -/
def termHfb (t : TermOut) (hfb : Nat) : TermOut :=
  let t := termBytes t [27, 91, 48, 59]
  let t := if hfb ≥ 100 then termBytes t [49, 59] else t
  termAsc (termNum (termAsc (termNum t (hfbFG.getD (hfb / 10 % 10) 0)) 59)
    (10 + hfbFG.getD (hfb % 10) 0)) 109

/-- `TermOut::save_cleanup` from `termout.rs`: move the whole buffer into
the pending-cleanup slot.  Note: `flush_to` is not reset. -/
def termSaveCleanup (t : TermOut) : TermOut :=
  { t with newCleanup := some t.buf, buf := [] }

/-- `TermOut::data_to_flush` from `termout.rs`: the slice
`&buf[..flush_to]`; `none` models the out-of-range abort. -/
def termDataToFlush (t : TermOut) : Option (List Nat) :=
  if t.flushTo ≤ t.buf.length then some (t.buf.take t.flushTo) else none

/-- `TermOut::drain_flush` from `termout.rs`; `none` models the abort when
`flush_to` exceeds the buffer length. -/
def termDrainFlush (t : TermOut) : Option TermOut :=
  if t.flushTo ≤ t.buf.length then
    some { t with buf := t.buf.drop t.flushTo, flushTo := 0 }
  else none

/-- `TermOut::discard` from `termout.rs`. -/
def termDiscard (t : TermOut) : TermOut :=
  { t with buf := [], flushTo := 0 }

/-- `TermOut::set_size` from `termout.rs`. -/
def termSetSize (t : TermOut) (sy sx : Int) : TermOut :=
  { t with size := (sy, sx) }

/-! ## Helper lemmas -/

theorem rowSpan_normal (r : Row) (x sx shift : Nat) : (rowSpan r x sx shift).normal = r.normal :=
  rfl

theorem rowHfb_normal (r : Row) (hfb : Nat) : (rowHfb r hfb).normal = r.normal :=
  rfl

theorem addSlice_normal (r : Row) (t : List Nat) : (addSlice r t).normal = r.normal :=
  rfl

theorem serEmitF_normal (data : List Nat) (gvec : List Glyph) :
    ∀ c gi hfb row, ((serEmitF data gvec c gi hfb row).1).normal = row.normal := by
  intro c
  induction c with
  | zero => intro gi hfb row; rfl
  | succ n ih =>
    intro gi hfb row
    simp only [serEmitF]
    split
    · rw [ih]; rfl
    · rw [ih]; rfl

theorem serOuterF_normal (data : List Nat) (gvec : List Glyph) (glen : Nat) :
    ∀ fuel gi hfb x row, (serOuterF data gvec glen fuel gi hfb x row).normal = row.normal := by
  intro fuel
  induction fuel with
  | zero => intro gi hfb x row; rfl
  | succ n ih =>
    intro gi hfb x row
    simp only [serOuterF]
    split
    · rw [ih, serEmitF_normal]; rfl
    · rfl

theorem rowNormalizeBody_normal (r : Row) (sx : Nat) (r' : Row)
    (h : rowNormalizeBody r sx = some r') : r'.normal = true := by
  unfold rowNormalizeBody at h
  split at h
  · exact Option.noConfusion h
  · obtain rfl := Option.some.inj h
    rw [serOuterF_normal]
    rfl

theorem rowNormalize_some_normal (r : Row) (sx : Nat) (r' : Row)
    (h : rowNormalize r sx = some r') : r'.normal = true := by
  unfold rowNormalize at h
  split at h
  · obtain rfl := Option.some.inj h
    assumption
  · exact rowNormalizeBody_normal r sx r' h

theorem rowNormalize_idem (r : Row) (sx : Nat) (r' : Row)
    (h : rowNormalize r sx = some r') : rowNormalize r' sx = some r' := by
  have hn := rowNormalize_some_normal r sx r' h
  simp [rowNormalize, hn]

theorem normRows_idem (sx : Nat) :
    ∀ (n : Nat) (rs rs' : List Row), normRows sx n rs = some rs' → normRows sx n rs' = some rs' := by
  intro n
  induction n with
  | zero =>
    intro rs rs' h
    obtain rfl := Option.some.inj h
    rfl
  | succ n ih =>
    intro rs rs' h
    cases rs with
    | nil => exact Option.noConfusion h
    | cons r tl =>
      simp only [normRows, Option.bind_eq_bind] at h
      cases h1 : rowNormalize r sx with
      | none => rw [h1] at h; exact Option.noConfusion h
      | some r0 =>
        rw [h1] at h
        simp only [Option.some_bind] at h
        cases h2 : normRows sx n tl with
        | none => rw [h2] at h; exact Option.noConfusion h
        | some tl0 =>
          rw [h2] at h
          simp only [Option.some_bind] at h
          obtain rfl := Option.some.inj h
          simp only [normRows, Option.bind_eq_bind, rowNormalize_idem r sx r0 h1,
            Option.some_bind, ih tl tl0 h2]

/-! ## Claim theorems -/

/-- Concrete page fixture for C1: the page produced by
`Page::new(1, 2, 0)` followed by `full().write(0, 0, 1, "a")`.  Its single
row log still holds a span covering `[0, 2)` (header `0xFC 2`) followed by
an overlapping span covering `[0, 1)` (header `0xFE 0 1`). -/
def c1page : Page :=
  { sy := 1, sx := 2, csx := 1,
    rows := [{ normal := true, pos := 1,
               data := [0xFC, 2, 0xEF, 0xA3, 0xBF, 0xFE, 0, 1, 0xEF, 0xA3, 0xBF, 97] }] }

/-- C1: refuted on the code.  After `Page::new(1, 2, 0)` and a single
`write(0, 0, 1, "a")` through the full region, `Page::normalize()` leaves
the row byte-for-byte unchanged: the log still contains the original span
record covering `[0, 2)` and an overlapping appended span covering
`[0, 1)`, and the attribute markers for hfb 0 and hfb 1 are not minimal or
position-sorted.  The normalisation body never runs because no operation
ever sets `Row.normal` to false. -/
theorem normalize_leaves_overlapping_spans :
    regionWriteb (pageNew 1 2 0) (pageFull (pageNew 1 2 0)) 0 0 1 [97] = some (c1page, 1)
    ∧ pageNormalize c1page = some c1page
    ∧ (c1page.rows.getD 0 (rowNew 0 0)).normal = true := by
  refine ⟨by decide, by decide, by decide⟩

/-- Concrete row fixture for C2: the row of `Page::new(1, 1, 0)` after
`full().write(0, 0, 0, "éa")`.  The truncating write copies only the first
byte `0xC3` of the two-byte glyph into the log. -/
def c2written : Row :=
  { normal := true, pos := 1,
    data := [0xFC, 1, 0xEF, 0xA3, 0xBF, 0xFE, 0, 1, 0xEF, 0xA3, 0xBF, 0xC3] }

/-- C2: refuted on the code.  `Scan::measure` reads index 1 of a one-byte
slice holding the malformed byte `0xC3` (out-of-range abort) instead of
treating it as a width-1 replacement character; such a slice is reachable
through the listed operations: writing `"éa"` into a width-1 clip stores
the lone lead byte `0xC3` at the end of the row log, and `Row::difference`
against the freshly created row then aborts while scanning it. -/
theorem glyph_scan_aborts_on_malformed_utf8 :
    scanMeasure [0xC3] = none
    ∧ regionWriteb (pageNew 1 1 0) (pageFull (pageNew 1 1 0)) 0 0 0 [0xC3, 0xA9, 0x61]
        = some ({ sy := 1, sx := 1, csx := 1, rows := [c2written] }, 3)
    ∧ rowDifference (rowNew 1 0) c2written 1 = none := by
  refine ⟨by decide, by decide, by decide⟩

/-- C3: refuted on the code.  `Row::hfb` computes
`(0xE000 + hfb).max(0xF8FF)` — `max`, not `min` — so every valid `hfb`
value (0..=6399) is pinned to the codepoint U+F8FF and encodes to the same
three bytes `EF A3 BF`; distinct hfb values do not produce distinct
markers, and hfb 0 does not encode U+E000 (`EE 80 80`). -/
theorem hfb_marker_pinned_to_f8ff :
    (rowHfb { normal := true, pos := 0, data := [] } 0).data = [0xEF, 0xA3, 0xBF]
    ∧ hfbMarker 0 = hfbMarker 1
    ∧ hfbMarker 0 = hfbMarker 6399
    ∧ hfbMarker 0 ≠ [0xEE, 0x80, 0x80] := by
  refine ⟨by decide, by decide, by decide, by decide⟩

/-- C4: refuted on the code.  An attribute marker is recognised only when
it ends the scanned slice (the source tests `self.0.len() <= 3`): measuring
`"\u{E000}a"` (bytes `EE 80 80 61`) yields 4, because the mid-text marker
is consumed as three width-1 bytes, while the claim requires 1 (the count
of non-marker codepoints).  A marker at the very end is zero-width. -/
theorem mid_text_attr_marker_advances_x :
    pageMeasure [0xEE, 0x80, 0x80, 0x61] = some 4
    ∧ pageMeasure [0x61, 0xEE, 0x80, 0x80] = some 1
    ∧ pageMeasure [0xEE, 0x80, 0x80] = some 0 := by
  refine ⟨by decide, by decide, by decide⟩

/-- C5: refuted on the code.  For a region with origin offset `ox = 5` on a
1×10 page, `write(0, -4, 0, "a")` starts left of the clip and the text ends
before reaching it; the skip loop's `Meas::End` arm returns the
page-coordinate x (2) instead of the region-coordinate end position
`-4 + 1 = -3`: the `- self.ox` translation is missing on that path. -/
theorem writeb_skip_return_misses_origin_offset :
    regionWriteb (pageNew 1 10 0) (pageRegion (pageNew 1 10 0) 0 5 1 5) 0 (-4) 0 [97]
      = some (pageNew 1 10 0, 2)
    ∧ pageMeasure [97] = some 1
    ∧ (2 : Int) ≠ -4 + 1 := by
  refine ⟨by decide, by decide, by decide⟩

/-- Page fixture for C6: `Page::new(1, 2, 0)` after one full-region
`write(0, 0, 0, "  ")`. -/
def c6newPage : Page :=
  ((regionWriteb (pageNew 1 2 0) (pageFull (pageNew 1 2 0)) 0 0 0 [32, 32]).getD
    (pageNew 1 2 0, 0)).1

/-- Page fixture for C6: `c6newPage` after a second identical
`write(0, 0, 0, "  ")`. -/
def c6oldPage : Page :=
  ((regionWriteb c6newPage (pageFull c6newPage) 0 0 0 [32, 32]).getD (c6newPage, 0)).1

/-- The row of `c6newPage`. -/
def c6newRow : Row := c6newPage.rows.getD 0 (rowNew 0 0)

/-- The row of `c6oldPage`. -/
def c6oldRow : Row := c6oldPage.rows.getD 0 (rowNew 0 0)

/-- C6 counterexample: two rows of width 2, both produced by the engine and
both fixed points of `Row::normalize`, with different `data`, for which
`Row::difference` invokes the callback zero times — refuting the "zero
emissions iff equal data" direction of the claim.  The old row carries an
extra overwriting span whose glyphs are skipped by the `g0.x < g1.x` arm
without any emission. -/
theorem difference_zero_emissions_distinct_data :
    c6newRow.data = [0xFC, 2, 0xEF, 0xA3, 0xBF, 0xFE, 0, 2, 0xEF, 0xA3, 0xBF, 32, 32]
    ∧ c6oldRow.data = [0xFC, 2, 0xEF, 0xA3, 0xBF, 0xFE, 0, 2, 0xEF, 0xA3, 0xBF, 32, 32,
                        0xFE, 0, 2, 0xEF, 0xA3, 0xBF, 32, 32]
    ∧ rowNormalize c6oldRow 2 = some c6oldRow
    ∧ rowNormalize c6newRow 2 = some c6newRow
    ∧ c6oldRow.data ≠ c6newRow.data
    ∧ rowDifference c6oldRow c6newRow 2 = some [] := by
  refine ⟨by decide, by decide, by decide, by decide, by decide, by decide⟩

/-- Iterated `GlyphScan::next`: `gsIter s n` is the `(n+1)`-st glyph of the
scan started at `s`, together with the scanner state after it. -/
def gsIter (s : GS) : Nat → Option (Glyph × GS)
  | 0 => gsNext s
  | n + 1 =>
    match gsIter s n with
    | none => none
    | some p => gsNext p.2

/-- `gg` is one of the glyphs that the glyph scan rooted at `root`
produces (paired with the scanner state that follows it). -/
def scanYields (root : GS) (gg : Glyph) : Prop :=
  ∃ (n : Nat) (s' : GS), gsIter root n = some (gg, s')

theorem gsIter_step (root : GS) (n : Nat) (g : Glyph) (s s' : GS) (g' : Glyph)
    (h1 : gsIter root n = some (g, s)) (h2 : gsNext s = some (g', s')) :
    gsIter root (n + 1) = some (g', s') := by
  simp only [gsIter, h1, h2]

theorem differenceF_sound (odata ndata : List Nat) (sx : Nat) (root : GS) :
    ∀ (fuel : Nat) (s0 s1 : GS) (g0 g1 : Glyph) (acc l : List Glyph),
      differenceF fuel s0 s1 g0 g1 odata ndata sx acc = some l →
      (∃ n : Nat, gsIter root n = some (g0, s0)) →
      (∀ g ∈ acc, ∃ gg : Glyph,
        scanYields root gg ∧ g.x ≤ gg.x ∧ glyphEqual gg odata g ndata = false) →
      ∀ g ∈ l, ∃ gg : Glyph,
        scanYields root gg ∧ g.x ≤ gg.x ∧ glyphEqual gg odata g ndata = false := by
  intro fuel
  induction fuel with
  | zero => intro s0 s1 g0 g1 acc l h _ _; exact Option.noConfusion h
  | succ n ih =>
    intro s0 s1 g0 g1 acc l h hg0pos hacc
    obtain ⟨m, hm⟩ := hg0pos
    simp only [differenceF] at h
    split at h
    · split at h
      · -- g0.x < g1.x: advance the old scan, no emission
        cases hg : gsNext s0 with
        | none => rw [hg] at h; exact Option.noConfusion h
        | some p =>
          obtain ⟨g0', s0'⟩ := p
          rw [hg] at h
          simp only [Option.bind_eq_bind, Option.some_bind] at h
          exact ih s0' s1 g0' g1 acc l h ⟨m + 1, gsIter_step root m g0 s0 s0' g0' hm hg⟩ hacc
      · split at h
        · -- equal glyphs: advance both scans, no emission
          cases hg0 : gsNext s0 with
          | none => rw [hg0] at h; exact Option.noConfusion h
          | some p0 =>
            obtain ⟨g0', s0'⟩ := p0
            rw [hg0] at h
            simp only [Option.bind_eq_bind, Option.some_bind] at h
            cases hg1 : gsNext s1 with
            | none => rw [hg1] at h; exact Option.noConfusion h
            | some p1 =>
              obtain ⟨g1', s1'⟩ := p1
              rw [hg1] at h
              simp only [Option.bind_eq_bind, Option.some_bind] at h
              exact ih s0' s1' g0' g1' acc l h
                ⟨m + 1, gsIter_step root m g0 s0 s0' g0' hm hg0⟩ hacc
        · -- emission: the callback receives g1, and the old scan's current
          -- glyph g0 satisfies g1.x ≤ g0.x and fails Glyph::equal against it
          cases hg1 : gsNext s1 with
          | none => rw [hg1] at h; exact Option.noConfusion h
          | some p1 =>
            obtain ⟨g1', s1'⟩ := p1
            rw [hg1] at h
            simp only [Option.bind_eq_bind, Option.some_bind] at h
            refine ih s0 s1' g0 g1' (acc ++ [g1]) l h ⟨m, hm⟩ ?_
            intro g hg
            rcases List.mem_append.mp hg with hmem | hmem
            · exact hacc g hmem
            · obtain rfl : g = g1 := List.mem_singleton.mp hmem
              refine ⟨g0, ⟨m, s0, hm⟩, ?_, ?_⟩
              · omega
              · rename_i hlt heq
                exact Bool.not_eq_true _ ▸ (by simpa using heq)
    · obtain rfl := Option.some.inj h
      exact hacc

/-- C6 amended: `Row::difference` invokes the callback zero times IF
`old.data == new.data`, and every glyph it emits fails `Glyph::equal`
against a glyph that the old row's own glyph scan produces at the same or
greater x position (the old-scan glyph current at the emission).  The
converse of the first part is refuted by the counterexample. -/
theorem difference_soundness (old new : Row) (sx : Nat) (l : List Glyph)
    (h : rowDifference old new sx = some l) :
    (old.data = new.data → l = [])
    ∧ ∀ g ∈ l, ∃ gg : Glyph,
        scanYields (gsNew old.data sx old.data.length) gg
        ∧ g.x ≤ gg.x ∧ glyphEqual gg old.data g new.data = false := by
  unfold rowDifference at h
  by_cases he : old.data = new.data
  · rw [if_pos he] at h
    obtain rfl := Option.some.inj h
    exact ⟨fun _ => rfl, by intro g hg; exact absurd hg (List.not_mem_nil g)⟩
  · rw [if_neg he] at h
    refine ⟨fun hd => absurd hd he, ?_⟩
    cases hg0 : gsNext (gsNew old.data sx old.data.length) with
    | none => rw [hg0] at h; exact Option.noConfusion h
    | some p0 =>
      obtain ⟨g0, s0'⟩ := p0
      rw [hg0] at h
      simp only [Option.bind_eq_bind, Option.some_bind] at h
      cases hg1 : gsNext (gsNew new.data sx new.data.length) with
      | none => rw [hg1] at h; exact Option.noConfusion h
      | some p1 =>
        obtain ⟨g1, s1'⟩ := p1
        rw [hg1] at h
        simp only [Option.bind_eq_bind, Option.some_bind] at h
        exact differenceF_sound old.data new.data sx (gsNew old.data sx old.data.length)
          _ s0' s1' g0 g1 [] l h ⟨0, hg0⟩
          (by intro g hg; exact absurd hg (List.not_mem_nil g))

/-- Witness for the C6 amended theorem at a concrete emitting input:
diffing the one-write row against the two-write row emits exactly the two
space glyphs of the old row's extra span. -/
theorem difference_soundness_witness :
    (c6newRow.data = c6oldRow.data →
      ([⟨162, 0, 1, 0, 1, 1, 16⟩, ⟨162, 1, 1, 0, 1, 1, 17⟩] : List Glyph) = [])
    ∧ ∀ g ∈ ([⟨162, 0, 1, 0, 1, 1, 16⟩, ⟨162, 1, 1, 0, 1, 1, 17⟩] : List Glyph),
        ∃ gg : Glyph, scanYields (gsNew c6newRow.data 2 c6newRow.data.length) gg
          ∧ g.x ≤ gg.x ∧ glyphEqual gg c6newRow.data g c6oldRow.data = false :=
  difference_soundness c6newRow c6oldRow 2
    [⟨162, 0, 1, 0, 1, 1, 16⟩, ⟨162, 1, 1, 0, 1, 1, 17⟩] (by decide)

/-- C7: confirmed, for every `Page` state (in particular all states
reachable through the public operations).  Running `Page::normalize` a
second time changes nothing: either the first run aborts (and so does the
composition), or it yields a page all of whose rows carry `normal = true`,
on which a second run is the identity. -/
theorem normalize_idempotent (pg : Page) :
    (pageNormalize pg).bind pageNormalize = pageNormalize pg := by
  cases h : pageNormalize pg with
  | none => rfl
  | some pg' =>
    simp only [Option.bind_eq_bind, Option.some_bind]
    unfold pageNormalize at h ⊢
    simp only [Option.bind_eq_bind] at h ⊢
    cases h2 : normRows (intToU16 pg.sx) pg.sy.toNat pg.rows with
    | none => rw [h2] at h; exact Option.noConfusion h
    | some rs =>
      rw [h2] at h
      simp only [Option.some_bind] at h
      obtain rfl := Option.some.inj h
      have h3 := normRows_idem (intToU16 pg.sx) pg.sy.toNat pg.rows rs h2
      simp only [h3, Option.some_bind]

set_option maxRecDepth 4096 in
/-- Bit-level bridge: for a 7-bit value, OR-ing in bit 7 is addition. -/
theorem lor_bit7 (a : Nat) (h : a < 128) : a ||| 128 = a + 128 := by
  have hall : ∀ b ∈ Finset.range 128, b ||| 128 = b + 128 := by decide
  exact hall a (Finset.mem_range.mpr h)

/-- C8: confirmed.  For every value in `0..=32767`, `Row::arg` emits one
byte when the value is below 128 and otherwise the high byte OR `0x80`
followed by the low byte, and `Scan::get_arg` decodes the emitted bytes
(followed by anything) back to exactly the same value. -/
theorem varint_roundtrip (v : Nat) (hv : v ≤ 32767) :
    (∀ rest : List Nat, getArg (argBytes v ++ rest) = some (v, rest))
    ∧ (v < 128 → argBytes v = [v])
    ∧ (128 ≤ v → argBytes v = [((v >>> 8) % 256) ||| 128, v % 256]) := by
  have hshr : v >>> 8 = v / 256 := Nat.shiftRight_eq_div_pow v 8
  refine ⟨?_, ?_, ?_⟩
  · intro rest
    by_cases h : v < 128
    · have hb : argBytes v = [v % 256] := by
        unfold argBytes
        rw [if_neg (by omega)]
      rw [hb, Nat.mod_eq_of_lt (by omega)]
      simp only [List.cons_append, List.nil_append, getArg]
      rw [if_pos h]
    · have hdiv : v / 256 < 128 := by omega
      have hb : argBytes v = [(v / 256) ||| 128, v % 256] := by
        unfold argBytes
        rw [if_pos (by omega), hshr, Nat.mod_eq_of_lt (by omega)]
      rw [hb, lor_bit7 _ hdiv]
      simp only [List.cons_append, List.nil_append, getArg]
      rw [if_neg (by omega)]
      have hval : (v / 256 + 128 - 128) <<< 8 + v % 256 = v := by
        rw [Nat.shiftLeft_eq]
        omega
      rw [hval]
  · intro h
    unfold argBytes
    rw [if_neg (by omega), Nat.mod_eq_of_lt (by omega)]
  · intro h
    unfold argBytes
    rw [if_pos (by omega)]

/-- Witness for C8 at the concrete value 300 with a nonempty suffix. -/
theorem varint_roundtrip_witness :
    300 ≤ 32767 ∧ getArg (argBytes 300 ++ [7]) = some (300, [7]) :=
  ⟨by decide, (varint_roundtrip 300 (by decide)).1 [7]⟩

/-- C9 counterexample: on a freshly created output buffer (size `(0, 0)`,
before any resize) the cursor-positioning operation `at(0, 0)` aborts —
`rem_euclid` with a zero divisor — rather than appending bytes, refuting
"every append operation is infallible for every buffer state". -/
theorem at_aborts_on_initial_size :
    termAt (termNew false) 0 0 = none := by decide

/-- C9 amended: every plain append operation of the output buffer (bytes,
single byte, single ASCII, ESC pairs, CSI prefix, decimal numbers) is total
and only appends to the buffer; cursor positioning `at(y, x)` is total and
only appends whenever both components of the current size are nonzero.  At
size components equal to zero, `at` aborts (see the counterexample). -/
theorem append_operations_append_only :
    (∀ (t : TermOut) (d : List Nat), termBytes t d = { t with buf := t.buf ++ d })
    ∧ (∀ (t : TermOut) (v : Nat), termByt t v = { t with buf := t.buf ++ [v % 256] })
    ∧ (∀ (t : TermOut) (c : Nat), termAsc t c = { t with buf := t.buf ++ [c % 256] })
    ∧ (∀ (t : TermOut) (c : Nat), termEsc t c = { t with buf := t.buf ++ [27, c % 256] })
    ∧ (∀ t : TermOut, termCsi t = { t with buf := t.buf ++ [27, 91] })
    ∧ (∀ (t : TermOut) (v : Int), termNum t v = { t with buf := t.buf ++ numBytes v })
    ∧ (∀ (t : TermOut) (y x : Int), t.size.1 ≠ 0 → t.size.2 ≠ 0 →
        termAt t y x = some { t with
          buf := t.buf ++ [27, 91] ++ numBytes (y.emod t.size.1 + 1) ++ [59]
            ++ numBytes (x.emod t.size.2 + 1) ++ [72] }) := by
  refine ⟨fun t d => rfl, fun t v => rfl, fun t c => rfl, fun t c => rfl,
    fun t => rfl, fun t v => rfl, fun t y x hy hx => ?_⟩
  unfold termAt
  rw [if_neg (by
    simp only [not_or]
    exact ⟨hy, hx⟩)]
  simp [termAsc, termNum, termCsi, termEsc]

/-- Witness for the C9 amended theorem: on a 2×3 buffer, `at(-1, -1)`
appends the cursor-positioning sequence for the bottom-right cell. -/
theorem append_operations_append_only_witness :
    (termSetSize (termNew false) 2 3).size.1 ≠ 0
    ∧ termAt (termSetSize (termNew false) 2 3) (-1) (-1)
        = some { termSetSize (termNew false) 2 3 with
                 buf := (termSetSize (termNew false) 2 3).buf ++ [27, 91]
                   ++ numBytes ((-1 : Int).emod (termSetSize (termNew false) 2 3).size.1 + 1)
                   ++ [59]
                   ++ numBytes ((-1 : Int).emod (termSetSize (termNew false) 2 3).size.2 + 1)
                   ++ [72] } :=
  ⟨by decide, append_operations_append_only.2.2.2.2.2.2
    (termSetSize (termNew false) 2 3) (-1) (-1) (by decide) (by decide)⟩

/-- C10: refuted on the code.  `save_cleanup` drains the whole buffer but
does not reset `flush_to` (unlike `drain_flush` and `discard`): after
`byt(65)`, `flush()`, `save_cleanup()` the state has `flush_to = 1` and an
empty buffer, so the invariant `flush_to <= buf.len()` is broken and
`data_to_flush()` indexes out of bounds. -/
theorem save_cleanup_breaks_flush_invariant :
    (termSaveCleanup (termFlush (termByt (termNew false) 65))).flushTo = 1
    ∧ (termSaveCleanup (termFlush (termByt (termNew false) 65))).buf = []
    ∧ termDataToFlush (termSaveCleanup (termFlush (termByt (termNew false) 65))) = none := by
  refine ⟨by decide, by decide, by decide⟩

end StakkerTui
